import Mathlib

/-!
Verification development for the image-optimization pipeline: a CloudFront
url-rewrite function that canonicalizes query parameters into an operation
path segment, and a Lambda image-processing function that fetches an
original image, applies resize/format operations, enforces an oversize
policy and writes the derived artifact back to a store.

The JavaScript sources are shallowly embedded: JS strings are Lean
`String`s, `parseInt` / `toLowerCase` / `includes` / `replace` are modelled
char-by-char, external effects (S3 get/put, the sharp codec) are oracles
passed in explicitly, and each handler becomes a pure Lean function.
-/

namespace ImgOpt

/-- ASCII lower-casing of a single character, as JS `toLowerCase` acts on
the ASCII range (the only characters the handlers compare against). -/
def jsLowerChar (c : Char) : Char :=
  if 64 < c.toNat ∧ c.toNat < 91 then Char.ofNat (c.toNat + 32) else c

/-- JS `String.prototype.toLowerCase` on ASCII strings. -/
def jsLower (s : String) : String := ⟨s.data.map jsLowerChar⟩

/-- `startsWithL s p` : does the char list `s` start with `p`. -/
def startsWithL : List Char → List Char → Bool
  | _, [] => true
  | [], _ :: _ => false
  | c :: s, p :: ps => c == p && startsWithL s ps

/-- Substring containment on char lists (JS `String.prototype.includes`). -/
def hasSubL : List Char → List Char → Bool
  | [], p => startsWithL [] p
  | s@(_ :: t), p => startsWithL s p || hasSubL t p

/-- JS `s.includes(sub)`. -/
def jsIncludes (s sub : String) : Bool := hasSubL s.data sub.data

/-- Replace the first occurrence of the (nonempty) pattern `p` in `s` by
`r`, leaving `s` unchanged when `p` does not occur — the behaviour of JS
`String.prototype.replace` with a string pattern. -/
def replFirstL : List Char → List Char → List Char → List Char
  | [], _, _ => []
  | c :: t, p, r =>
    if startsWithL (c :: t) p then r ++ (c :: t).drop p.length
    else c :: replFirstL t p r

/-- JS `s.replace(pat, rep)` for a plain-string pattern (first occurrence
only; an empty pattern prepends the replacement, as in JS). -/
def jsReplaceFirst (s pat rep : String) : String :=
  if pat = "" then rep ++ s else ⟨replFirstL s.data pat.data rep.data⟩

/-- JS `s.endsWith(pat)`. -/
def jsEndsWith (s pat : String) : Bool := startsWithL s.data.reverse pat.data.reverse

/-- JS `s.startsWith(pat)`. -/
def jsStartsWith (s pat : String) : Bool := startsWithL s.data pat.data

/-- Accumulate the value of a leading run of decimal digits. -/
def digitsLoopL : Nat → List Char → Nat
  | acc, [] => acc
  | acc, c :: t => if c.isDigit then digitsLoopL (acc * 10 + (c.toNat - 48)) t else acc

/-- Core of JS `parseInt` (base 10) on a whitespace-stripped char list:
an optional sign followed by at least one digit; `none` models `NaN`. -/
def parseIntL : List Char → Option Int
  | [] => none
  | c :: t =>
    if c = '-' then
      match t with
      | d :: _ => if d.isDigit then some (-(Int.ofNat (digitsLoopL 0 t))) else none
      | [] => none
    else if c = '+' then
      match t with
      | d :: _ => if d.isDigit then some (Int.ofNat (digitsLoopL 0 t)) else none
      | [] => none
    else if c.isDigit then some (Int.ofNat (digitsLoopL 0 (c :: t)))
    else none

/-- JS `parseInt(s)` for decimal input; `none` models `NaN`. -/
def parseIntStr (s : String) : Option Int :=
  parseIntL (s.data.dropWhile (fun c => c == ' ' || c == '\t' || c == '\n' || c == '\r'))

/-- JS `parseInt(x)` where `x` may be `undefined` (`parseInt(undefined)` is `NaN`). -/
def parseIntOpt : Option String → Option Int
  | some s => parseIntStr s
  | none => none

/-- Split a char list at every occurrence of `sep` (the segment built so
far is carried reversed). -/
def splitCharAux (sep : Char) : List Char → List Char → List (List Char)
  | acc, [] => [acc.reverse]
  | acc, c :: t => if c = sep then acc.reverse :: splitCharAux sep [] t
                   else splitCharAux sep (c :: acc) t

/-- JS `s.split(sep)` for a single-character separator (every separator
used by the sources — `,`, `=`, `|`, `/` — is one character). -/
def jsSplit (s : String) (sep : Char) : List String :=
  (splitCharAux sep [] s.data).map (fun l => ⟨l⟩)

/-! ## Edge normalizer (functions/url-rewrite/index.js)

The CloudFront viewer-request handler.  The request is modelled by its
`uri`, its query string (a list of key/value pairs, `none` when the
`querystring` object is absent), the optional `accept` header value, and
the `crafterSite` cookie value.  The handler returns the rewritten `uri`.
-/

/-- The normalized operations object built by the url-rewrite handler:
one optional slot per recognized operation key. -/
structure NormOps where
  f : Option String := none
  q : Option String := none
  w : Option String := none
  h : Option String := none
  mw : Option String := none
  mh : Option String := none
deriving DecidableEq

/-- `SUPPORTED_FORMATS` of the url-rewrite handler. -/
def SUPPORTED_FORMATS : List String := ["auto", "jpg", "jpeg", "webp", "avif", "png"]

/-- `SUPPORTED_EXTENSIONS` of the url-rewrite handler. -/
def SUPPORTED_EXTENSIONS : List String := [".jpg", ".jpeg", ".webp", ".avif", ".png"]

/-- The `transformed` folder name prepended to rewritten URIs. -/
def transformedFolder : String := "transformed"

/-- Resolution of the (lower-cased) format value: `auto` is resolved
against the `accept` header — `avif` when advertised, else `webp` when
advertised, else `jpeg`; any other supported value passes through. -/
def resolveFormat (accept : Option String) (fmt : String) : String :=
  if fmt = "auto" then
    match accept with
    | none => "jpeg"
    | some a => if jsIncludes a "avif" then "avif"
                else if jsIncludes a "webp" then "webp"
                else "jpeg"
  else fmt

/-- The `w` / `h` / `mw` / `mh` cases of the url-rewrite switch: a truthy
value that parses to a positive integer is kept (re-rendered as a decimal
string), anything else is dropped. -/
def normPosInt (v : String) : Option String :=
  if v = "" then none
  else match parseIntStr v with
    | some n => if 0 < n then some (toString n) else none
    | none => none

/-- The `q` case of the url-rewrite switch: positive integers are kept,
clamped to at most 100. -/
def normQuality (v : String) : Option String :=
  if v = "" then none
  else match parseIntStr v with
    | some n => if 0 < n then some (toString (if 100 < n then (100 : Int) else n)) else none
    | none => none

/-- One iteration of the url-rewrite handler's `forEach` over the query
string: switch on the lower-cased key and record the validated value. -/
def processOp (accept : Option String) (r : NormOps) (kv : String × String) : NormOps :=
  let k := jsLower kv.1
  let v := kv.2
  if k = "f" then
    if v ≠ "" ∧ SUPPORTED_FORMATS.contains (jsLower v) then
      { r with f := some (resolveFormat accept (jsLower v)) }
    else r
  else if k = "w" then
    match normPosInt v with
    | some s => { r with w := some s }
    | none => r
  else if k = "h" then
    match normPosInt v with
    | some s => { r with h := some s }
    | none => r
  else if k = "mw" then
    match normPosInt v with
    | some s => { r with mw := some s }
    | none => r
  else if k = "mh" then
    match normPosInt v with
    | some s => { r with mh := some s }
    | none => r
  else if k = "q" then
    match normQuality v with
    | some s => { r with q := some s }
    | none => r
  else r

/-- The sequence of `push`es building `normalizedOperationsArray`:
`f`, then `q`, then `w`, then `h`, then `mw`, then `mh`. -/
def emitOps (r : NormOps) : List String :=
  (r.f.map (fun v => "f=" ++ v)).toList ++
  (r.q.map (fun v => "q=" ++ v)).toList ++
  (r.w.map (fun v => "w=" ++ v)).toList ++
  (r.h.map (fun v => "h=" ++ v)).toList ++
  (r.mw.map (fun v => "mw=" ++ v)).toList ++
  (r.mh.map (fun v => "mh=" ++ v)).toList

/-- `Object.keys(normalizedOperations).length > 0`: some slot was set. -/
def hasOps (r : NormOps) : Bool :=
  r.f.isSome || r.q.isSome || r.w.isSome || r.h.isSome || r.mw.isSome || r.mh.isSome

/-- The uri produced by the normalization block of the url-rewrite handler
(before the `transformed` folder and cookie are prepended): the canonical
operation segment when valid operations were found, the `/original` tag
otherwise. -/
def rewriteCore (uri : String) (qs : Option (List (String × String)))
    (accept : Option String) : String :=
  match qs with
  | none => uri ++ "/original"
  | some l =>
    let r := l.foldl (processOp accept) {}
    if hasOps r then uri ++ "/" ++ String.intercalate "," (emitOps r)
    else uri ++ "/original"

/-- The full url-rewrite handler: requests for supported image extensions
get the normalized operation segment and the `/transformed` folder; the
`crafterSite` cookie value, when truthy, is prepended to every uri. -/
def urlRewriteHandler (uri : String) (qs : Option (List (String × String)))
    (accept : Option String) (crafterSite : String) : String :=
  let u :=
    if SUPPORTED_EXTENSIONS.any (fun ext => jsEndsWith uri ext) then
      "/" ++ transformedFolder ++ rewriteCore uri qs accept
    else uri
  if crafterSite ≠ "" then "/" ++ crafterSite ++ u else u

/-! ## Image processing Lambda (functions/image-processing/index.js)

The handler and `transformImage`.  External effects are oracles: the S3
`getObject` result, the intrinsic metadata and output of the sharp codec,
and whether `putObject` succeeds.
-/

/-- The Lambda environment configuration (`process.env`). -/
structure Config where
  secretKey : String
  maxImageSize : Nat
  ttl : String
  autoSizes : String
  autoFormats : String
  allowWidths : String
  allowHeights : String

/-- A Lambda-URL style response value. -/
structure JsResponse where
  statusCode : Nat
  body : Option String := none
  isBase64Encoded : Bool := false
  headers : List (String × String) := []
deriving DecidableEq

/-- `sendError`: log and return `{ statusCode, body }`. -/
def sendError (statusCode : Nat) (msg : String) : JsResponse :=
  { statusCode := statusCode, body := some msg }

/-- `operationsPrefix.split(',').map(op => op.split('='))` as an
association list; a bare token (no `=`) maps to `none`, mirroring the
`undefined` value `Object.fromEntries` gives it. -/
def parseOpsList (s : String) : List (String × Option String) :=
  (jsSplit s ',').map (fun part =>
    match jsSplit part '=' with
    | [] => ("", none)
    | [k] => (k, none)
    | k :: v :: _ => (k, some v))

/-- `operationsJSON[k]`; `Object.fromEntries` keeps the last entry for a
duplicated key.  The outer `none` is an absent key, `some none` a bare
token. -/
def opsGet (l : List (String × Option String)) (k : String) : Option (Option String) :=
  (l.reverse.find? (fun p => p.1 == k)).map (fun p => p.2)

/-- The string value of `operationsJSON[k]`, when it has one. -/
def opsVal (l : List (String × Option String)) (k : String) : Option String :=
  match opsGet l k with
  | some (some v) => some v
  | _ => none

/-- JS truthiness of `operationsJSON[k]` (a nonempty string value). -/
def opsTruthy (l : List (String × Option String)) (k : String) : Bool :=
  match opsGet l k with
  | some (some v) => !(v == "")
  | _ => false

/-- `x || d` for a JS number `x` (NaN and 0 are falsy) and default `d`. -/
def jsOrNat (v : Option Int) (d : Nat) : Int :=
  match v with
  | some n => if n = 0 then (d : Int) else n
  | none => (d : Int)

/-- The `resizingOptions` object handed to `sharp.resize`. -/
structure ResizeOpts where
  width : Option Int := none
  height : Option Int := none
  fit : Option String := none
deriving DecidableEq

/-- The resize/rotate stage of `transformImage` (inside the `try`).
Returns `none` when the allow-list check is configured: the code then
dereferences `allowTransformImageWidths.allowTransformImageWidths`, a
`TypeError` caught by the surrounding `try` (a 500 transform error).
Otherwise returns the `resize` argument (`none` when the whole block is
skipped by a truthy `org` entry) and whether `rotate` is applied. -/
def resizeStage (cfg : Config) (ops : List (String × Option String))
    (metaW metaH : Nat) (orientation : Bool) : Option (Option ResizeOpts × Bool) :=
  if opsTruthy ops "org" then some (none, false)
  else if cfg.allowWidths ≠ "" ∧ cfg.allowHeights ≠ "" then none
  else
    let wVal := parseIntOpt (opsVal ops "w")
    let hVal := parseIntOpt (opsVal ops "h")
    let mwVal := parseIntOpt (opsVal ops "mw")
    let mhVal := parseIntOpt (opsVal ops "mh")
    let r0 : ResizeOpts := {}
    let r1 := if opsTruthy ops "w" then
        { r0 with width := some (min (jsOrNat wVal metaW) (metaW : Int)) } else r0
    let r2 := if opsTruthy ops "h" then
        { r1 with height := some (min (jsOrNat hVal metaH) (metaH : Int)) } else r1
    let r3 := if opsTruthy ops "mw" then
        { r2 with width := some (min (jsOrNat mwVal metaW) (metaW : Int)),
                  fit := some "inside" } else r2
    let r4 := if opsTruthy ops "mh" then
        { r3 with height := some (min (jsOrNat mhVal metaH) (metaH : Int)),
                  fit := some "inside" } else r3
    some (some r4, orientation)

/-- A `toFormat` call: the target format and — when the quality branch is
taken — the parsed `quality` option (`none` inside models `NaN`). -/
structure FormatCall where
  fmt : String
  quality : Option (Option Int) := none
deriving DecidableEq

/-- The formatting stage of `transformImage`: when a truthy `f` entry
other than `org` is present, pick the content type and lossiness by the
switch, and call `toFormat` with the parsed `quality` exactly when a
truthy `quality` entry exists and the format is lossy.  Returns the
`toFormat` call (if any) and the resulting content type. -/
def formatStage (ops : List (String × Option String)) (ct0 : String) :
    Option FormatCall × String :=
  if opsTruthy ops "f" ∧ opsVal ops "f" ≠ some "org" then
    let f := (opsVal ops "f").getD ""
    let p : String × Bool :=
      match f with
      | "jpeg" => ("image/jpeg", true)
      | "gif" => ("image/gif", false)
      | "webp" => ("image/webp", true)
      | "png" => ("image/png", false)
      | "avif" => ("image/avif", true)
      | _ => ("image/jpeg", true)
    if opsTruthy ops "quality" ∧ p.2 = true then
      (some { fmt := f, quality := some (parseIntOpt (opsVal ops "quality")) }, p.1)
    else
      (some { fmt := f, quality := none }, p.1)
  else (none, ct0)

/-- `operationsPrefix.replace('org,f=org','').replace('org,','').replace(',f=org','')`,
with an empty result replaced by `'original'`. -/
def shortenOps (ops : String) : String :=
  let s := jsReplaceFirst (jsReplaceFirst (jsReplaceFirst ops "org,f=org" "") "org," "") ",f=org" ""
  if s = "" then "original" else s

/-- The `Key` of the `putObject` call persisting the derived artifact. -/
def putKey (path ops : String) : String :=
  jsReplaceFirst path "/static-assets/" ("/" ++ transformedFolder ++ "/static-assets/")
    ++ "/" ++ shortenOps ops

/-- `operationsPrefix.replace(/,/g, "&")`. -/
def opsAsQuery (ops : String) : String := ⟨ops.data.map (fun c => if c = ',' then '&' else c)⟩

/-- The tail of `transformImage` after the output buffer exists: compare
its byte length against `MAX_IMAGE_SIZE`, attempt the `putObject`
(`putOk` tells whether it succeeds or throws), and produce the response —
302 redirect for a persisted oversize image, 403 for an unpersisted one,
200 with the transformed bytes otherwise. -/
def afterTransform (cfg : Config) (putOk : Bool) (path ops ct data : String)
    (size : Nat) : JsResponse :=
  let imageTooBig := cfg.maxImageSize < size
  if putOk then
    if imageTooBig then
      { statusCode := 302,
        headers := [("Location", "/" ++ path ++ "?" ++ opsAsQuery ops),
                    ("Cache-Control", "private,no-store")] }
    else
      { statusCode := 200, body := some data, isBase64Encoded := true,
        headers := [("Content-Type", ct), ("Cache-Control", cfg.ttl)] }
  else
    if imageTooBig then sendError 403 "Requested transformed image is too big"
    else
      { statusCode := 200, body := some data, isBase64Encoded := true,
        headers := [("Content-Type", ct), ("Cache-Control", cfg.ttl)] }

/-- Oracles for the external effects of one `transformImage` call. -/
structure TransformEnv where
  /-- `S3.getObject`: `none` = throws, `some ct` = succeeds with this `ContentType`. -/
  fetch : Option String
  /-- intrinsic width from `sharp.metadata()` -/
  metaW : Nat
  /-- intrinsic height from `sharp.metadata()` -/
  metaH : Nat
  /-- truthiness of `metadata().orientation` -/
  orientation : Bool
  /-- the codec: resize options, rotate flag and `toFormat` call determine
  the output buffer — `none` = `toBuffer` throws, `some (n, b)` = a buffer
  of `n` bytes whose base64 rendering is `b`. -/
  codec : Option ResizeOpts → Bool → Option FormatCall → Option (Nat × String)
  /-- whether the `putObject` promise resolves -/
  putOk : Bool

/-- `transformImage(originalImagePath, operationsPrefix)`. -/
def transformImage (cfg : Config) (env : TransformEnv) (path ops : String) : JsResponse :=
  match env.fetch with
  | none => sendError 500 "Error downloading original image"
  | some ct0 =>
    let opsL := parseOpsList ops
    match resizeStage cfg opsL env.metaW env.metaH env.orientation with
    | none => sendError 500 "error transforming image"
    | some (rz, rot) =>
      let fc := formatStage opsL ct0
      match env.codec rz rot fc.1 with
      | none => sendError 500 "error transforming image"
      | some (size, data) => afterTransform cfg env.putOk path ops fc.2 data size

/-! ### The Lambda handler -/

/-- `event.Records[0]` of an S3 notification. -/
structure S3EventRec where
  eventName : String
  key : String

/-- `event.requestContext.http`. -/
structure HttpCtx where
  method : String
  path : String

/-- A Lambda invocation event (direct requests carry headers and an http
request context; S3 notifications carry a record). -/
structure LambdaEvent where
  records : Option S3EventRec
  headers : String → Option String
  reqCtx : Option HttpCtx

/-- The failed-authorization condition of the handler:
`!event.headers['x-origin-secret-header'] || !(event.headers['x-origin-secret-header'] === SECRET_KEY)`. -/
def authHeaderFails (headers : String → Option String) (secret : String) : Bool :=
  match headers "x-origin-secret-header" with
  | none => true
  | some v => (v == "") || !(v == secret)

/-- The cross-product of transform calls issued by the S3-event branch:
skip `sandbox/` keys and unsupported extensions, else one
`transformImage(key, `${size},f=${format}`)` per configured size × format. -/
def s3BatchCalls (cfg : Config) (key : String) : List (String × String) :=
  if jsStartsWith key "sandbox/" then []
  else if SUPPORTED_EXTENSIONS.any (fun ext => jsEndsWith key ext) then
    (jsSplit cfg.autoSizes '|').flatMap (fun size =>
      (jsSplit cfg.autoFormats '|').map (fun fmt => (key, size ++ ",f=" ++ fmt)))
  else []

/-- What the handler does with an event: return a response without ever
fetching or transforming, delegate to one `transformImage` call, or run
the S3 batch. -/
inductive HandlerOutcome where
  | response (r : JsResponse)
  | transformCall (path ops : String)
  | batch (calls : List (String × String))
deriving DecidableEq

/-- The direct-request branch of the handler: authorization check, method
check, then split the path into the original image path and the
operations segment and delegate to `transformImage`. -/
def directBranch (cfg : Config) (e : LambdaEvent) : HandlerOutcome :=
  if authHeaderFails e.headers cfg.secretKey then
    .response (sendError 403 "Request unauthorized")
  else
    match e.reqCtx with
    | none => .response (sendError 400 "Only GET method is supported")
    | some ctx =>
      if ctx.method ≠ "GET" then .response (sendError 400 "Only GET method is supported")
      else
        let parts := jsSplit ctx.path '/'
        let ops := parts.getLast?.getD ""
        let orig := String.intercalate "/" (parts.dropLast.drop 1)
        .transformCall (jsReplaceFirst orig (transformedFolder ++ "/") "") ops

/-- `exports.handler`. -/
def handler (cfg : Config) (e : LambdaEvent) : HandlerOutcome :=
  match e.records with
  | some rec =>
    if jsIncludes rec.eventName "ObjectCreated" then .batch (s3BatchCalls cfg rec.key)
    else directBranch cfg e
  | none => directBranch cfg e

/-! ## Proof infrastructure for the edge normalizer

`processOp` writes at most one slot per query pair, the slot named by the
lower-cased key.  Making the slot explicit lets the fold be analysed one
slot at a time.
-/

/-- The six operation slots of `NormOps`. -/
inductive Slot where
  | F | Q | W | H | MW | MH
deriving DecidableEq

/-- The lower-cased query key owning each slot. -/
def slotKey : Slot → String
  | .F => "f"
  | .Q => "q"
  | .W => "w"
  | .H => "h"
  | .MW => "mw"
  | .MH => "mh"

/-- The slot a (lower-cased) query key writes to, if any. -/
def slotOf (k : String) : Option Slot :=
  if k = "f" then some .F
  else if k = "w" then some .W
  else if k = "h" then some .H
  else if k = "mw" then some .MW
  else if k = "mh" then some .MH
  else if k = "q" then some .Q
  else none

/-- Read a slot of `NormOps`. -/
def getSlot : Slot → NormOps → Option String
  | .F, r => r.f
  | .Q, r => r.q
  | .W, r => r.w
  | .H, r => r.h
  | .MW, r => r.mw
  | .MH, r => r.mh

/-- Write a slot of `NormOps`. -/
def setSlot : Slot → Option String → NormOps → NormOps
  | .F, v, r => { r with f := v }
  | .Q, v, r => { r with q := v }
  | .W, v, r => { r with w := v }
  | .H, v, r => { r with h := v }
  | .MW, v, r => { r with mw := v }
  | .MH, v, r => { r with mh := v }

/-- The validated value a query value contributes to a slot, if any. -/
def slotNew (accept : Option String) : Slot → String → Option String
  | .F, v => if v ≠ "" ∧ SUPPORTED_FORMATS.contains (jsLower v) then
               some (resolveFormat accept (jsLower v))
             else none
  | .Q, v => normQuality v
  | .W, v => normPosInt v
  | .H, v => normPosInt v
  | .MW, v => normPosInt v
  | .MH, v => normPosInt v

/-- One slot update: a valid value overwrites, an invalid one keeps. -/
def applySlot (accept : Option String) (s : Slot) (cur : Option String) (v : String) :
    Option String :=
  match slotNew accept s v with
  | some x => some x
  | none => cur

/-- Lower-case the key of a query pair. -/
def lowerPair (kv : String × String) : String × String := (jsLower kv.1, kv.2)

/-- The operation-key part of an emitted `key=value` segment. -/
def fieldName (s : String) : String := ⟨s.data.takeWhile (fun c => c != '=')⟩

/-! ## Basic lemmas -/

theorem toNat_ofNat_valid (n : Nat) (h : n.isValidChar) : (Char.ofNat n).toNat = n := by
  simp [Char.ofNat, dif_pos h, Char.ofNatAux, Char.toNat, UInt32.toNat, BitVec.toNat_ofNatLt]

theorem jsLowerChar_idem (c : Char) : jsLowerChar (jsLowerChar c) = jsLowerChar c := by
  by_cases h : 64 < c.toNat ∧ c.toNat < 91
  · have hv : (c.toNat + 32).isValidChar := Or.inl (by omega)
    have ht : (Char.ofNat (c.toNat + 32)).toNat = c.toNat + 32 := toNat_ofNat_valid _ hv
    unfold jsLowerChar
    rw [if_pos h, if_neg (by omega)]
  · unfold jsLowerChar
    rw [if_neg h, if_neg h]

theorem jsLower_idem (s : String) : jsLower (jsLower s) = jsLower s := by
  simp only [jsLower, List.map_map]
  refine congrArg String.mk ?_
  induction s.data with
  | nil => rfl
  | cons c t ih => simp [Function.comp, jsLowerChar_idem, ih]

theorem parseIntStr_ne_empty {s : String} {v : Int} (h : parseIntStr s = some v) : s ≠ "" := by
  intro he
  subst he
  simp [parseIntStr, parseIntL] at h

theorem opsTruthy_of_parse {ops : List (String × Option String)} {k : String} {v : Int}
    (h : parseIntOpt (opsVal ops k) = some v) : opsTruthy ops k = true := by
  unfold opsVal opsTruthy at *
  match hg : opsGet ops k with
  | none => rw [hg] at h; simp [parseIntOpt] at h
  | some none => rw [hg] at h; simp [parseIntOpt] at h
  | some (some s) =>
    rw [hg] at h
    simp only [parseIntOpt] at h
    simp [parseIntStr_ne_empty h]

/-! ## C1 — unauthorized direct requests are rejected before any work -/

/-- C1: a direct (non-S3-event) request whose `x-origin-secret-header` is
absent, empty, or different from the configured secret is answered with
the 403 `Request unauthorized` response, and the handler never reaches a
`transformImage` call (so neither the original fetch nor the transform
happens). -/
theorem direct_unauthorized_rejected (cfg : Config) (e : LambdaEvent)
    (hdirect : e.records = none)
    (hauth : authHeaderFails e.headers cfg.secretKey = true) :
    handler cfg e = .response (sendError 403 "Request unauthorized") ∧
    (∀ p o, handler cfg e ≠ .transformCall p o) ∧
    (∀ calls, handler cfg e ≠ .batch calls) := by
  have hb : handler cfg e = directBranch cfg e := by
    unfold handler
    rw [hdirect]
  have hd : directBranch cfg e = .response (sendError 403 "Request unauthorized") := by
    unfold directBranch
    rw [hauth]
    rfl
  refine ⟨hb.trans hd, ?_, ?_⟩
  · intro p o hc
    rw [hb, hd] at hc
    exact HandlerOutcome.noConfusion hc
  · intro calls hc
    rw [hb, hd] at hc
    exact HandlerOutcome.noConfusion hc

theorem direct_unauthorized_rejected_witness :
    handler
      { secretKey := "topsecret", maxImageSize := 4700000, ttl := "max-age=31622400",
        autoSizes := "org", autoFormats := "org", allowWidths := "", allowHeights := "" }
      { records := none, headers := fun _ => some "wrong",
        reqCtx := some { method := "GET", path := "/sample/1.jpg/w=100" } } =
      .response (sendError 403 "Request unauthorized") :=
  (direct_unauthorized_rejected
    { secretKey := "topsecret", maxImageSize := 4700000, ttl := "max-age=31622400",
      autoSizes := "org", autoFormats := "org", allowWidths := "", allowHeights := "" }
    { records := none, headers := fun _ => some "wrong",
      reqCtx := some { method := "GET", path := "/sample/1.jpg/w=100" } }
    rfl (by decide)).1

/-! ## C2, C3, C4 — the oversize / persistence policy -/

/-- C2: when the transformed output exceeds `MAX_IMAGE_SIZE` and the
`putObject` succeeds, the response is a 302 whose `Location` is
`'/' + originalImagePath + '?' + operationsPrefix` with every `,`
replaced by `&`. -/
theorem oversize_persisted_redirect (cfg : Config) (path ops ct data : String) (size : Nat)
    (hbig : cfg.maxImageSize < size) :
    afterTransform cfg true path ops ct data size =
      { statusCode := 302,
        headers := [("Location", "/" ++ path ++ "?" ++ opsAsQuery ops),
                    ("Cache-Control", "private,no-store")] } := by
  simp [afterTransform, hbig]

theorem oversize_persisted_redirect_witness :
    afterTransform
      { secretKey := "s", maxImageSize := 4, ttl := "max-age=31622400",
        autoSizes := "org", autoFormats := "org", allowWidths := "", allowHeights := "" }
      true "sample/1.jpg" "w=100,h=50" "image/jpeg" "QUJD" 5 =
      { statusCode := 302,
        headers := [("Location", "/sample/1.jpg?w=100&h=50"),
                    ("Cache-Control", "private,no-store")] } :=
  (oversize_persisted_redirect _ _ _ _ _ _ (by decide)).trans (by decide)

/-- C3: when the transformed output exceeds the ceiling and the
`putObject` throws, the response is the 403 `too big` error — in
particular it is neither a 302 nor a 200 carrying the payload. -/
theorem oversize_unpersisted_forbidden (cfg : Config) (path ops ct data : String) (size : Nat)
    (hbig : cfg.maxImageSize < size) :
    afterTransform cfg false path ops ct data size =
      sendError 403 "Requested transformed image is too big" ∧
    (afterTransform cfg false path ops ct data size).statusCode ≠ 302 ∧
    (afterTransform cfg false path ops ct data size).statusCode ≠ 200 := by
  refine ⟨?_, ?_, ?_⟩ <;> simp [afterTransform, hbig, sendError]

theorem oversize_unpersisted_forbidden_witness :
    afterTransform
      { secretKey := "s", maxImageSize := 4, ttl := "max-age=31622400",
        autoSizes := "org", autoFormats := "org", allowWidths := "", allowHeights := "" }
      false "sample/1.jpg" "w=100" "image/jpeg" "QUJD" 5 =
      sendError 403 "Requested transformed image is too big" :=
  (oversize_unpersisted_forbidden _ _ _ _ _ _ (by decide)).1

/-- C4: when the transformed output is within the ceiling, a failing
`putObject` does not change the response — it is still the 200 with the
freshly computed bytes, the resolved content type and the cache-lifetime
header, identical to the response after a successful write. -/
theorem put_failure_within_bound_still_200 (cfg : Config) (path ops ct data : String)
    (size : Nat) (hfit : size ≤ cfg.maxImageSize) :
    afterTransform cfg false path ops ct data size =
      { statusCode := 200, body := some data, isBase64Encoded := true,
        headers := [("Content-Type", ct), ("Cache-Control", cfg.ttl)] } ∧
    afterTransform cfg false path ops ct data size =
      afterTransform cfg true path ops ct data size := by
  constructor <;> simp [afterTransform, Nat.not_lt.mpr hfit]

/-! ## C5 — resize targets never exceed the intrinsic dimensions -/

theorem jsOrNat_some {v : Int} {d : Nat} (hv : v ≠ 0) : jsOrNat (some v) d = v := by
  simp [jsOrNat, hv]

theorem ite_min_bound {c1 c2 : Prop} [Decidable c1] [Decidable c2] {a b W x : Int}
    (hx : (if c1 then some (min a W) else if c2 then some (min b W) else none) = some x) :
    x ≤ W := by
  split at hx
  · exact (Option.some.inj hx) ▸ min_le_right _ _
  · split at hx
    · exact (Option.some.inj hx) ▸ min_le_right _ _
    · exact absurd hx (by simp)

/-- The resize options computed by the happy path of the resize stage,
slot by slot. -/
theorem resizeStage_eq (cfg : Config) (ops : List (String × Option String))
    (metaW metaH : Nat) (orient : Bool)
    (hallow : ¬(cfg.allowWidths ≠ "" ∧ cfg.allowHeights ≠ ""))
    (horg : opsTruthy ops "org" = false) :
    resizeStage cfg ops metaW metaH orient = some (some {
      width := if opsTruthy ops "mw" then
                 some (min (jsOrNat (parseIntOpt (opsVal ops "mw")) metaW) (metaW : Int))
               else if opsTruthy ops "w" then
                 some (min (jsOrNat (parseIntOpt (opsVal ops "w")) metaW) (metaW : Int))
               else none,
      height := if opsTruthy ops "mh" then
                  some (min (jsOrNat (parseIntOpt (opsVal ops "mh")) metaH) (metaH : Int))
                else if opsTruthy ops "h" then
                  some (min (jsOrNat (parseIntOpt (opsVal ops "h")) metaH) (metaH : Int))
                else none,
      fit := if opsTruthy ops "mw" ∨ opsTruthy ops "mh" then some "inside" else none },
      orient) := by
  simp only [resizeStage, horg, Bool.false_eq_true, if_false, if_neg hallow]
  by_cases hw : opsTruthy ops "w" = true <;>
    by_cases hh : opsTruthy ops "h" = true <;>
      by_cases hmw : opsTruthy ops "mw" = true <;>
        by_cases hmh : opsTruthy ops "mh" = true <;>
          simp [hw, hh, hmw, hmh]

/-- C5: whenever the resize stage runs (no truthy `org` entry, no
allow-list crash), every width/height passed to the codec's `resize` is
at most the intrinsic dimension on that axis, and a parsed `w`/`h`
(absent a dominating `mw`/`mh`) or `mw`/`mh` value `v` produces the
per-axis target `min v intrinsic` — so a requested dimension larger than
the intrinsic one is clamped to the intrinsic one. -/
theorem resize_never_upscales (cfg : Config) (ops : List (String × Option String))
    (metaW metaH : Nat) (orient : Bool)
    (hallow : ¬(cfg.allowWidths ≠ "" ∧ cfg.allowHeights ≠ ""))
    (horg : opsTruthy ops "org" = false) :
    ∃ r : ResizeOpts, resizeStage cfg ops metaW metaH orient = some (some r, orient) ∧
      (∀ x, r.width = some x → x ≤ (metaW : Int)) ∧
      (∀ y, r.height = some y → y ≤ (metaH : Int)) ∧
      (opsTruthy ops "mw" = false →
        ∀ v : Int, parseIntOpt (opsVal ops "w") = some v → v ≠ 0 →
          r.width = some (min v (metaW : Int))) ∧
      (∀ v : Int, parseIntOpt (opsVal ops "mw") = some v → v ≠ 0 →
        r.width = some (min v (metaW : Int))) ∧
      (opsTruthy ops "mh" = false →
        ∀ v : Int, parseIntOpt (opsVal ops "h") = some v → v ≠ 0 →
          r.height = some (min v (metaH : Int))) ∧
      (∀ v : Int, parseIntOpt (opsVal ops "mh") = some v → v ≠ 0 →
        r.height = some (min v (metaH : Int))) := by
  refine ⟨_, resizeStage_eq cfg ops metaW metaH orient hallow horg, ?_, ?_, ?_, ?_, ?_, ?_⟩
  · intro x hx
    exact ite_min_bound hx
  · intro y hy
    exact ite_min_bound hy
  · intro hmw v hv hv0
    have ht : opsTruthy ops "w" = true := opsTruthy_of_parse hv
    simp [hmw, ht, hv, jsOrNat_some hv0]
  · intro v hv hv0
    have ht : opsTruthy ops "mw" = true := opsTruthy_of_parse hv
    simp [ht, hv, jsOrNat_some hv0]
  · intro hmh v hv hv0
    have ht : opsTruthy ops "h" = true := opsTruthy_of_parse hv
    simp [hmh, ht, hv, jsOrNat_some hv0]
  · intro v hv hv0
    have ht : opsTruthy ops "mh" = true := opsTruthy_of_parse hv
    simp [ht, hv, jsOrNat_some hv0]

theorem resize_never_upscales_witness :
    ∃ r : ResizeOpts,
      resizeStage
        { secretKey := "s", maxImageSize := 4700000, ttl := "max-age=31622400",
          autoSizes := "org", autoFormats := "org", allowWidths := "", allowHeights := "" }
        (parseOpsList "w=9999") 800 600 false = some (some r, false) ∧
      r.width = some 800 := by
  obtain ⟨r, hr, -, -, hw, -, -, -⟩ :=
    resize_never_upscales
      { secretKey := "s", maxImageSize := 4700000, ttl := "max-age=31622400",
        autoSizes := "org", autoFormats := "org", allowWidths := "", allowHeights := "" }
      (parseOpsList "w=9999") 800 600 false (by decide) (by decide)
  refine ⟨r, hr, ?_⟩
  have h8 := hw (by decide) 9999 (by decide) (by decide)
  simpa using h8

/-! ## C6 — the quality operation -/

/-- C6 (refuting the claim as stated): the format stage looks quality up
under the key `quality`, while the canonical operation grammar and the
edge normalizer spell the field `q` — so a lossy re-encode requested as
`f=jpeg,q=50` is performed *without* the requested quality (first two
conjuncts), although a `quality=50` entry would be applied (third) and a
lossless target ignores it without error (fourth). -/
theorem quality_key_never_applied :
    (formatStage (parseOpsList "f=jpeg,q=50") "image/png").1 =
      some { fmt := "jpeg", quality := none } ∧
    (formatStage (parseOpsList "f=webp,q=50") "image/png").1 =
      some { fmt := "webp", quality := none } ∧
    (formatStage (parseOpsList "f=jpeg,quality=50") "image/png").1 =
      some { fmt := "jpeg", quality := some (some 50) } ∧
    (formatStage (parseOpsList "f=png,quality=50") "image/jpeg").1 =
      some { fmt := "png", quality := none } := by
  refine ⟨by decide, by decide, by decide, by decide⟩

/-! ## C9 — the `/original` tag -/

/-- C9: when no valid operation survives the filtering (no query string
at all, or every value dropped), the rewritten uri is the resource path
tagged with `/original` — never an empty operation segment. -/
theorem no_valid_ops_original_tag (uri cs : String) (accept : Option String)
    (l : List (String × String))
    (hext : SUPPORTED_EXTENSIONS.any (fun ext => jsEndsWith uri ext) = true)
    (hinv : hasOps (l.foldl (processOp accept) {}) = false) :
    rewriteCore uri (some l) accept = uri ++ "/original" ∧
    rewriteCore uri none accept = uri ++ "/original" ∧
    urlRewriteHandler uri (some l) accept cs =
      (if cs ≠ "" then "/" ++ cs else "") ++
        ("/" ++ transformedFolder ++ (uri ++ "/original")) := by
  have hc : rewriteCore uri (some l) accept = uri ++ "/original" := by
    simp [rewriteCore, hinv]
  refine ⟨hc, rfl, ?_⟩
  by_cases hcs : cs = "" <;> simp [urlRewriteHandler, hext, hc, hcs]

theorem no_valid_ops_original_tag_witness :
    urlRewriteHandler "/sample/1.jpg" (some [("w", "abc"), ("x", "1")]) none "" =
      "/transformed/sample/1.jpg/original" :=
  ((no_valid_ops_original_tag "/sample/1.jpg" "" none [("w", "abc"), ("x", "1")]
      (by decide) (by decide)).2.2).trans (by decide)

/-! ## C10 — derived-key normalization of the no-op tokens -/

/-- C10: before persisting, the operations string is normalized by
first-occurrence stripping of `org,f=org`, `org,` and `,f=org`, an empty
result becoming `original`; hence `org,f=org` and `original` persist
under the same derived key, which for a path without a `/static-assets/`
segment is `originalImagePath + '/original'`. -/
theorem noop_tokens_share_derived_key :
    shortenOps "org,f=org" = "original" ∧
    shortenOps "original" = "original" ∧
    (∀ path : String, putKey path "org,f=org" = putKey path "original") ∧
    putKey "sample/1.jpg" "org,f=org" = "sample/1.jpg" ++ "/original" ∧
    shortenOps "org,f=jpeg" = "f=jpeg" ∧
    shortenOps "w=100,f=org" = "w=100" ∧
    shortenOps "" = "original" := by
  refine ⟨by decide, by decide, ?_, by decide, by decide, by decide, by decide⟩
  intro path
  simp only [putKey]
  rw [show shortenOps "org,f=org" = "original" by decide,
      show shortenOps "original" = "original" by decide]

theorem noop_tokens_share_derived_key_witness :
    putKey "sample/1.jpg" "org,f=org" = putKey "sample/1.jpg" "original" :=
  noop_tokens_share_derived_key.2.2.1 "sample/1.jpg"

/-! ## C8 — `f=auto` content negotiation -/

/-- C8: a query parameter whose lower-cased key is `f` and whose
lower-cased value is `auto` sets the normalized format from the `accept`
header: `avif` when the header advertises avif, else `webp` when it
advertises webp, else `jpeg` (also when the header is absent). -/
theorem f_auto_content_negotiation (accept : Option String) (r : NormOps) (k v : String)
    (hk : jsLower k = "f") (hv : jsLower v = "auto") :
    (processOp accept r (k, v)).f =
      some (match accept with
            | none => "jpeg"
            | some a => if jsIncludes a "avif" then "avif"
                        else if jsIncludes a "webp" then "webp"
                        else "jpeg") := by
  have hvne : v ≠ "" := by
    intro he
    rw [he] at hv
    exact absurd hv (by decide)
  simp [processOp, hk, hv, hvne, SUPPORTED_FORMATS, resolveFormat]

theorem f_auto_content_negotiation_witness :
    (processOp (some "text/html,image/webp,*/*") {} ("F", "Auto")).f = some "webp" :=
  (f_auto_content_negotiation (some "text/html,image/webp,*/*") {} "F" "Auto"
    (by decide) (by decide)).trans (by decide)

/-! ## C7 — canonical field order, and determinism under reordering/recasing -/

theorem slotOf_eq_some {k : String} {s : Slot} (h : slotOf k = some s) : k = slotKey s := by
  unfold slotOf at h
  split_ifs at h with h1 h2 h3 h4 h5 h6 <;> (cases Option.some.inj h; assumption)

theorem getSlot_setSlot_self (s : Slot) (v : Option String) (r : NormOps) :
    getSlot s (setSlot s v r) = v := by
  cases s <;> rfl

theorem getSlot_setSlot_ne {s t : Slot} (h : s ≠ t) (v : Option String) (r : NormOps) :
    getSlot s (setSlot t v r) = getSlot s r := by
  cases s <;> cases t <;> first | rfl | exact absurd rfl h

/-- `processOp` in slot form: it writes exactly the slot named by the
lower-cased key (if any), combining the validated value with the slot's
current content. -/
theorem processOp_char (a : Option String) (r : NormOps) (kv : String × String) :
    processOp a r kv =
      match slotOf (jsLower kv.1) with
      | none => r
      | some s => setSlot s (applySlot a s (getSlot s r) kv.2) r := by
  rcases kv with ⟨k, v⟩
  by_cases h1 : jsLower k = "f"
  · by_cases hc : v ≠ "" ∧ SUPPORTED_FORMATS.contains (jsLower v) <;>
      simp [processOp, slotOf, applySlot, slotNew, setSlot, getSlot, h1, hc] <;>
      split_ifs <;> simp
  · by_cases h2 : jsLower k = "w"
    · cases hnp : normPosInt v <;>
        simp [processOp, slotOf, applySlot, slotNew, setSlot, getSlot, h1, h2, hnp]
    · by_cases h3 : jsLower k = "h"
      · cases hnp : normPosInt v <;>
          simp [processOp, slotOf, applySlot, slotNew, setSlot, getSlot, h1, h2, h3, hnp]
      · by_cases h4 : jsLower k = "mw"
        · cases hnp : normPosInt v <;>
            simp [processOp, slotOf, applySlot, slotNew, setSlot, getSlot, h1, h2, h3, h4, hnp]
        · by_cases h5 : jsLower k = "mh"
          · cases hnp : normPosInt v <;>
              simp [processOp, slotOf, applySlot, slotNew, setSlot, getSlot,
                    h1, h2, h3, h4, h5, hnp]
          · by_cases h6 : jsLower k = "q"
            · cases hnq : normQuality v <;>
                simp [processOp, slotOf, applySlot, slotNew, setSlot, getSlot,
                      h1, h2, h3, h4, h5, h6, hnq]
            · simp [processOp, slotOf, h1, h2, h3, h4, h5, h6]

theorem getSlot_processOp_eq {a : Option String} {r : NormOps} {kv : String × String}
    {s : Slot} (h : slotOf (jsLower kv.1) = some s) :
    getSlot s (processOp a r kv) = applySlot a s (getSlot s r) kv.2 := by
  rw [processOp_char, h]
  exact getSlot_setSlot_self s _ r

theorem getSlot_processOp_ne {a : Option String} {r : NormOps} {kv : String × String}
    {s : Slot} (h : slotOf (jsLower kv.1) ≠ some s) :
    getSlot s (processOp a r kv) = getSlot s r := by
  rw [processOp_char]
  cases hso : slotOf (jsLower kv.1) with
  | none => rfl
  | some t =>
    have hts : s ≠ t := fun he => h (he ▸ hso)
    exact getSlot_setSlot_ne hts _ r

/-- The fold of `processOp`, one slot at a time: a slot's final value is
a fold over just the query pairs keyed (after lower-casing) to it. -/
theorem getSlot_foldl (a : Option String) (s : Slot) (r : NormOps)
    (l : List (String × String)) :
    getSlot s (l.foldl (processOp a) r) =
      (l.filter (fun kv => slotOf (jsLower kv.1) == some s)).foldl
        (fun cur kv => applySlot a s cur kv.2) (getSlot s r) := by
  induction l generalizing r with
  | nil => rfl
  | cons kv t ih =>
    rw [List.foldl_cons, List.filter_cons, ih]
    by_cases h : slotOf (jsLower kv.1) = some s
    · have hb : (slotOf (jsLower kv.1) == some s) = true := by simp [h]
      rw [hb, if_pos rfl, List.foldl_cons, getSlot_processOp_eq h]
    · have hb : (slotOf (jsLower kv.1) == some s) = false := by simp [h]
      rw [hb, getSlot_processOp_ne h]
      simp

theorem normOps_ext {r₁ r₂ : NormOps} (h : ∀ s, getSlot s r₁ = getSlot s r₂) : r₁ = r₂ := by
  rcases r₁ with ⟨f1, q1, w1, h1, mw1, mh1⟩
  rcases r₂ with ⟨f2, q2, w2, h2, mw2, mh2⟩
  have hF := h .F
  have hQ := h .Q
  have hW := h .W
  have hH := h .H
  have hMW := h .MW
  have hMH := h .MH
  simp only [getSlot] at hF hQ hW hH hMW hMH
  subst hF hQ hW hH hMW hMH
  rfl

theorem nodup_const_length_le_one {α : Type} (xs : List α) (c : α)
    (hnd : xs.Nodup) (hc : ∀ x ∈ xs, x = c) : xs.length ≤ 1 := by
  match xs with
  | [] => simp
  | [x] => simp
  | x :: y :: t =>
    have hx := hc x (by simp)
    have hy := hc y (by simp)
    have hxy : x = y := hx.trans hy.symm
    have hni := (List.nodup_cons.mp hnd).1
    exact absurd (show x ∈ y :: t by rw [hxy]; exact List.mem_cons_self y t) hni

theorem filter_slot_length_le_one (l : List (String × String))
    (hnd : (l.map (fun kv => jsLower kv.1)).Nodup) (s : Slot) :
    (l.filter (fun kv => slotOf (jsLower kv.1) == some s)).length ≤ 1 := by
  have hsub := List.filter_sublist (p := fun kv => slotOf (jsLower kv.1) == some s) l
  have hnd2 : ((l.filter (fun kv => slotOf (jsLower kv.1) == some s)).map
      (fun kv => jsLower kv.1)).Nodup := List.Nodup.sublist (hsub.map _) hnd
  have hc : ∀ x ∈ (l.filter (fun kv => slotOf (jsLower kv.1) == some s)).map
      (fun kv => jsLower kv.1), x = slotKey s := by
    intro x hx
    rcases List.mem_map.mp hx with ⟨kv, hkv, rfl⟩
    have hmem := List.of_mem_filter hkv
    exact slotOf_eq_some (by simpa using hmem)
  have hlen := nodup_const_length_le_one _ _ hnd2 hc
  simpa using hlen

theorem perm_eq_of_length_le_one {α : Type} {l₁ l₂ : List α}
    (h : l₁.Perm l₂) (hl : l₁.length ≤ 1) : l₁ = l₂ := by
  match l₁, hl with
  | [], _ => exact h.nil_eq
  | [a], _ => exact (List.perm_singleton.mp h.symm).symm
  | a :: b :: t, hl => simp at hl

/-- Folding `processOp` is invariant under permutations of a query-pair
list without duplicate (lower-cased) keys. -/
theorem foldl_processOp_perm (a : Option String) {l₁ l₂ : List (String × String)}
    (hp : l₁.Perm l₂) (hnd : (l₁.map (fun kv => jsLower kv.1)).Nodup)
    (r : NormOps) :
    l₁.foldl (processOp a) r = l₂.foldl (processOp a) r := by
  apply normOps_ext
  intro s
  rw [getSlot_foldl, getSlot_foldl]
  have hfeq : l₁.filter (fun kv => slotOf (jsLower kv.1) == some s) =
      l₂.filter (fun kv => slotOf (jsLower kv.1) == some s) :=
    perm_eq_of_length_le_one (hp.filter _) (filter_slot_length_le_one l₁ hnd s)
  rw [hfeq]

theorem processOp_lowerPair (a : Option String) (r : NormOps) (kv : String × String) :
    processOp a r (lowerPair kv) = processOp a r kv := by
  simp only [processOp, lowerPair, jsLower_idem]

theorem foldl_processOp_lower (a : Option String) (l : List (String × String)) (r : NormOps) :
    (l.map lowerPair).foldl (processOp a) r = l.foldl (processOp a) r := by
  induction l generalizing r with
  | nil => rfl
  | cons kv t ih => simp [processOp_lowerPair, ih]

theorem map_jsLower_lowerPair (l : List (String × String)) :
    (l.map lowerPair).map (fun kv => jsLower kv.1) = l.map (fun kv => jsLower kv.1) := by
  induction l with
  | nil => rfl
  | cons kv t ih => simp [lowerPair, jsLower_idem, ih]

theorem takeWhile_until_eq (ks rest : List Char)
    (hk : ∀ c ∈ ks, (c != '=') = true) :
    List.takeWhile (fun c => c != '=') (ks ++ '=' :: rest) = ks := by
  induction ks with
  | nil => simp [List.takeWhile]
  | cons c t ih =>
    have hc := hk c (by simp)
    simp [List.takeWhile_cons, hc, ih (fun d hd => hk d (by simp [hd]))]

theorem fieldName_push (ks : List Char) (v : String)
    (hk : ∀ c ∈ ks, (c != '=') = true) :
    fieldName (String.mk ks ++ "=" ++ v) = String.mk ks := by
  have hdata : (String.mk ks ++ "=" ++ v).data = ks ++ '=' :: v.data := by
    show (ks ++ "=".data) ++ v.data = ks ++ '=' :: v.data
    simp [List.append_assoc]
  simp only [fieldName, hdata]
  exact congrArg String.mk (takeWhile_until_eq ks v.data hk)

/-- The emitted segments carry their field names in the fixed canonical
order: they always form a subsequence of `f, q, w, h, mw, mh`. -/
theorem emitOps_order (r : NormOps) :
    List.Sublist ((emitOps r).map fieldName) ["f", "q", "w", "h", "mw", "mh"] := by
  have hf : ∀ v : String, fieldName ("f=" ++ v) = "f" :=
    fun v => fieldName_push ['f'] v (by decide)
  have hq : ∀ v : String, fieldName ("q=" ++ v) = "q" :=
    fun v => fieldName_push ['q'] v (by decide)
  have hw : ∀ v : String, fieldName ("w=" ++ v) = "w" :=
    fun v => fieldName_push ['w'] v (by decide)
  have hh : ∀ v : String, fieldName ("h=" ++ v) = "h" :=
    fun v => fieldName_push ['h'] v (by decide)
  have hmw : ∀ v : String, fieldName ("mw=" ++ v) = "mw" :=
    fun v => fieldName_push ['m', 'w'] v (by decide)
  have hmh : ∀ v : String, fieldName ("mh=" ++ v) = "mh" :=
    fun v => fieldName_push ['m', 'h'] v (by decide)
  rcases r with ⟨f, q, w, h, mw, mh⟩
  cases f <;> cases q <;> cases w <;> cases h <;> cases mw <;> cases mh <;>
    simp [emitOps, hf, hq, hw, hh, hmw, hmh] <;> decide

/-- C7: the edge normalizer emits the canonical operation string with its
fields in the fixed order f, q, w, h, mw, mh, and two query strings that
agree up to parameter order and key casing (no duplicated keys) rewrite
to the same URI. -/
theorem edge_canonical_order_determinism (accept : Option String) (uri cs : String)
    (l₁ l₂ : List (String × String))
    (hp : (l₁.map lowerPair).Perm (l₂.map lowerPair))
    (hnd : (l₁.map (fun kv => jsLower kv.1)).Nodup) :
    urlRewriteHandler uri (some l₁) accept cs = urlRewriteHandler uri (some l₂) accept cs ∧
    ∀ r : NormOps,
      List.Sublist ((emitOps r).map fieldName) ["f", "q", "w", "h", "mw", "mh"] := by
  refine ⟨?_, emitOps_order⟩
  have hnd1 : ((l₁.map lowerPair).map (fun kv => jsLower kv.1)).Nodup := by
    rw [map_jsLower_lowerPair]
    exact hnd
  have hfold : l₁.foldl (processOp accept) {} = l₂.foldl (processOp accept) {} := by
    rw [← foldl_processOp_lower accept l₁, ← foldl_processOp_lower accept l₂]
    exact foldl_processOp_perm accept hp hnd1 {}
  simp only [urlRewriteHandler, rewriteCore, hfold]

theorem edge_canonical_order_determinism_witness :
    urlRewriteHandler "/sample/1.jpg" (some [("W", "400"), ("f", "webp")]) none "site" =
      urlRewriteHandler "/sample/1.jpg" (some [("f", "webp"), ("w", "400")]) none "site" :=
  (edge_canonical_order_determinism none "/sample/1.jpg" "site"
    [("W", "400"), ("f", "webp")] [("f", "webp"), ("w", "400")]
    (by decide) (by decide)).1

theorem put_failure_within_bound_still_200_witness :
    afterTransform
      { secretKey := "s", maxImageSize := 4700000, ttl := "max-age=31622400",
        autoSizes := "org", autoFormats := "org", allowWidths := "", allowHeights := "" }
      false "sample/1.jpg" "f=webp,w=400" "image/webp" "QUJD" 1000 =
      { statusCode := 200, body := some "QUJD", isBase64Encoded := true,
        headers := [("Content-Type", "image/webp"),
                    ("Cache-Control", "max-age=31622400")] } :=
  (put_failure_within_bound_still_200 _ _ _ _ _ _ (by decide)).1

end ImgOpt
